import Mathlib

/-!
Verification development for the monocular visual-odometry pipeline in
`Slam_v1.py` (class `CameraPoses` plus the module-level video loop).

The embedding has two layers.

Layer 1 (`FP`): the parts of the program whose behaviour depends on
non-finite IEEE values (`get_pose`'s NaN/Inf guards, the cumulative-pose
composition of the main loop) are modelled over an extended scalar type
`FP` with explicit `inf`/`ninf`/`nan` constructors; finite values are
exact rationals (every float64 value is a rational), and arithmetic on
finite values is exact.  The external cv2 calls (`findEssentialMat`,
`decomposeEssentialMat`, `flann.knnMatch`, `orb.detectAndCompute`,
`cv2.imread`) are oracles: their outputs are inputs of the embedded
functions, quantified over in the theorems.

Layer 2 (real geometry): `decomp_essential_mat_old` and its inner
`sum_z_cal_relative_scale` are embedded over `ℝ` (exact-real model of
float arithmetic), with `cv2.triangulatePoints` as an oracle function
`tri` of the two projection matrices and the two point sequences.
-/

/-- Scalar model of a float64 value: a finite rational, `+inf`, `-inf`, or NaN. -/
inductive FP where
  | fin (q : ℚ)
  | inf
  | ninf
  | nan
deriving DecidableEq

namespace FP

/-- Model of `np.isnan` on one entry. -/
def isNaN : FP → Bool
  | nan => true
  | _ => false

/-- Model of `np.isinf` on one entry (true for both signed infinities). -/
def isInf : FP → Bool
  | inf => true
  | ninf => true
  | _ => false

/-- An entry is finite when it is neither NaN nor an infinity. -/
def isFinite : FP → Bool
  | fin _ => true
  | _ => false

/-- IEEE-style multiplication: exact on finite values, `0 * inf = nan`,
NaN propagates. -/
def mul : FP → FP → FP
  | fin a, fin b => fin (a * b)
  | nan, _ => nan
  | _, nan => nan
  | inf, fin b => if b = 0 then nan else if 0 < b then inf else ninf
  | ninf, fin b => if b = 0 then nan else if 0 < b then ninf else inf
  | fin a, inf => if a = 0 then nan else if 0 < a then inf else ninf
  | fin a, ninf => if a = 0 then nan else if 0 < a then ninf else inf
  | inf, inf => inf
  | inf, ninf => ninf
  | ninf, inf => ninf
  | ninf, ninf => inf

/-- IEEE-style addition: exact on finite values, `inf + (-inf) = nan`,
NaN propagates. -/
def add : FP → FP → FP
  | fin a, fin b => fin (a + b)
  | nan, _ => nan
  | _, nan => nan
  | inf, ninf => nan
  | ninf, inf => nan
  | inf, _ => inf
  | _, inf => inf
  | ninf, _ => ninf
  | _, ninf => ninf

end FP

/-- 3x3 matrix of scalar models (the essential matrix, rotations). -/
abbrev Mat3F : Type := Fin 3 → Fin 3 → FP

/-- 3-vector of scalar models (the translation). -/
abbrev Vec3F : Type := Fin 3 → FP

/-- 3x4 matrix of scalar models (the cumulative pose `cur_pose`, which the
script keeps as a 3x4 array: `start_pose = np.concatenate((I3, 0), axis=1)`). -/
abbrev Mat34F : Type := Fin 3 → Fin 4 → FP

/-- 4x4 matrix of scalar models (the relative transform returned by `get_pose`). -/
abbrev Mat4F : Type := Fin 4 → Fin 4 → FP

/-- Model of `np.any(np.isnan(A))` for a 3x3 array. -/
def anyNaN3 (A : Mat3F) : Bool :=
  (List.finRange 3).any fun i => (List.finRange 3).any fun j => (A i j).isNaN

/-- Model of `np.any(np.isinf(A))` for a 3x3 array. -/
def anyInf3 (A : Mat3F) : Bool :=
  (List.finRange 3).any fun i => (List.finRange 3).any fun j => (A i j).isInf

/-- Model of `np.any(np.isnan(t))` for the (squeezed) translation vector. -/
def anyNaNv (t : Vec3F) : Bool :=
  (List.finRange 3).any fun i => (t i).isNaN

/-- Model of `np.any(np.isinf(t))` for the (squeezed) translation vector. -/
def anyInfv (t : Vec3F) : Bool :=
  (List.finRange 3).any fun i => (t i).isInf

/-- Model of `np.any(np.isnan(T))` for a 4x4 array. -/
def anyNaN4 (T : Mat4F) : Bool :=
  (List.finRange 4).any fun i => (List.finRange 4).any fun j => (T i j).isNaN

/-- Model of `np.any(np.isinf(T))` for a 4x4 array. -/
def anyInf4 (T : Mat4F) : Bool :=
  (List.finRange 4).any fun i => (List.finRange 4).any fun j => (T i j).isInf

/-- Every entry of a 4x4 array is finite. -/
abbrev allFinite4 (T : Mat4F) : Prop := ∀ i j, (T i j).isFinite = true

/-- Every entry of the 3x4 cumulative pose is finite. -/
abbrev allFinite34 (P : Mat34F) : Prop := ∀ (i : Fin 3) (j : Fin 4), (P i j).isFinite = true

/-- Model of `_form_transf(R, t)`: `T = eye(4); T[:3,:3] = R; T[:3,3] = t`. -/
def form_transfF (R : Mat3F) (t : Vec3F) : Mat4F := fun i j =>
  if hi : (i : ℕ) < 3 then
    if hj : (j : ℕ) < 3 then R ⟨i, hi⟩ ⟨j, hj⟩ else t ⟨i, hi⟩
  else
    if (j : ℕ) = 3 then FP.fin 1 else FP.fin 0

/-- Model of `np.eye(4)`, the "no motion" fallback transform. -/
def eye4F : Mat4F := fun i j => if i = j then FP.fin 1 else FP.fin 0

/-- Dot product of a 4-row with a 4-column, in the scalar model. -/
def dot4F (a b : Fin 4 → FP) : FP :=
  (((a 0).mul (b 0)).add ((a 1).mul (b 1))).add
    (((a 2).mul (b 2)).add ((a 3).mul (b 3)))

/-- Model of `cur_pose @ transf` (3x4 times 4x4, line 215 of the script). -/
def matMul34F (P : Mat34F) (T : Mat4F) : Mat34F := fun i j =>
  dot4F (fun k => P i k) (fun k => T k j)

/-- The integrator update of the main video loop, exactly as written:
`cur_pose = cur_pose @ transf` with no validation of the product. -/
def integrateM (pose : Mat34F) (transf : Mat4F) : Mat34F := matMul34F pose transf

/-- Result of the (oracle) call `decomp_essential_mat_old(E, q1, q2)` as seen
by `get_pose`: the rotation `R`, the translation `t`, and the `Q1` point set
that the call appends to `self.world_points` (line 161) whenever it runs.
The appended entry is kept abstract in type `W`. -/
structure DecompOut (W : Type) where
  R : Mat3F
  t : Vec3F
  entry : W

/-- Model of `get_pose(q1, q2)` (lines 66-95).  `E` is the oracle output of
`cv2.findEssentialMat`; `dec` is the oracle output of
`decomp_essential_mat_old` together with its `world_points` append.  The
second component of the result is the list of entries appended to
`self.world_points` during the call: empty when decomposition is never
invoked (non-finite `E`), and `[dec.entry]` whenever decomposition runs,
since `decomp_essential_mat_old` appends before `get_pose` checks `R`, `t`
and the assembled transform for NaN/Inf. -/
def get_poseM {W : Type} (E : Mat3F) (dec : DecompOut W) : Mat4F × List W :=
  if anyNaN3 E || anyInf3 E then
    (eye4F, [])
  else
    if anyNaN3 dec.R || anyInf3 dec.R then
      (eye4F, [dec.entry])
    else if anyNaNv dec.t || anyInfv dec.t then
      (eye4F, [dec.entry])
    else
      let T := form_transfF dec.R dec.t
      if anyNaN4 T || anyInf4 T then (eye4F, [dec.entry]) else (T, [dec.entry])

/-- One match object from the FLANN matcher (`cv2.DMatch`): query/train
indices and a descriptor distance (a float, modelled exactly as a rational). -/
structure DMatch where
  queryIdx : ℕ
  trainIdx : ℕ
  distance : ℚ
deriving DecidableEq

/-- The ratio-test loop of `get_matches` (lines 53-59), exactly as written:

    good_matches = []
    try:
        for m, n in matches:
            if m.distance < 0.5 * n.distance:
                good_matches.append(m)
    except ValueError:
        pass

An inner list that is not exactly a pair fails tuple unpacking, raising
`ValueError`; the `except` swallows it, so iteration stops there and the
matches accepted so far are kept. -/
def goodMatchesLoop : List (List DMatch) → List DMatch
  | [] => []
  | [m, n] :: rest =>
      if m.distance < 1/2 * n.distance then m :: goodMatchesLoop rest
      else goodMatchesLoop rest
  | _ :: _ => []

/-- Selection rule as the spec states it (claim C6): each match is accepted
iff its best distance is strictly below half the second-best distance, and a
match lacking a usable second neighbour is dropped on its own, with all other
matches still processed. -/
def goodMatchesSpec : List (List DMatch) → List DMatch
  | [] => []
  | [m, n] :: rest =>
      if m.distance < 1/2 * n.distance then m :: goodMatchesSpec rest
      else goodMatchesSpec rest
  | _ :: rest => goodMatchesSpec rest

/-- A 2D pixel coordinate (`kp.pt`). -/
abbrev Pt2 : Type := ℚ × ℚ

/-- Per-frame-pair oracle outputs consumed by `get_matches` and `get_pose`:
the keypoints detected in each image, the raw knn matches, the essential
matrix, and the decomposition result. -/
structure PairObs (W : Type) where
  kps1 : List Pt2
  kps2 : List Pt2
  knn : List (List DMatch)
  E : Mat3F
  dec : DecompOut W

/-- Model of `get_matches(img1, img2)` (lines 48-64): if either image yields
6 or fewer keypoints the sentinel `None, None` is returned, otherwise the
ratio-test survivors are turned into two index-aligned coordinate lists. -/
def get_matchesM {W : Type} (o : PairObs W) : Option (List Pt2 × List Pt2) :=
  if 6 < o.kps1.length ∧ 6 < o.kps2.length then
    let good := goodMatchesLoop o.knn
    some (good.map fun m => o.kps1.getD m.queryIdx ((0 : ℚ), (0 : ℚ)),
          good.map fun m => o.kps2.getD m.trainIdx ((0 : ℚ), (0 : ℚ)))
  else none

/-- The mutable pipeline state touched by one frame pair: the cumulative
pose `cur_pose` and the triangulated point log `self.world_points`. -/
structure PipeState (W : Type) where
  pose : Mat34F
  wp : List W

/-- Processing of one frame pair inside the main loop (lines 211-215):

    q1, q2 = vo.get_matches(old_frame, new_frame)
    if q1 is not None:
        if len(q1) > 20 and len(q2) > 20:
            transf = vo.get_pose(q1, q2)
            cur_pose = cur_pose @ transf
-/
def pairProcess {W : Type} (o : PairObs W) (s : PipeState W) : PipeState W :=
  match get_matchesM o with
  | none => s
  | some (q1, q2) =>
      if 20 < q1.length ∧ 20 < q2.length then
        let r := get_poseM o.E o.dec
        { pose := integrateM s.pose r.1, wp := s.wp ++ r.2 }
      else s

/-- Full state of the main video loop: the pipeline state, the previous
frame, the `process_frames` flag, and two counters (frames read, frame
pairs processed). -/
structure LoopState (F W : Type) where
  st : PipeState W
  old : Option F
  processFrames : Bool
  frameCount : ℕ
  pairCount : ℕ

/-- One iteration of the `while cap.isOpened()` loop for a successfully read
frame `f` (lines 198-226): when `process_frames` is set, the pair
(`old_frame`, `f`) is processed; then `old_frame = f` and
`process_frames = True`.  `obs` is the oracle giving the cv2 outputs for a
frame pair. -/
def loopStep {F W : Type} (obs : F → F → PairObs W) (s : LoopState F W) (f : F) :
    LoopState F W :=
  let s' :=
    if s.processFrames then
      match s.old with
      | some oldF =>
          { s with st := pairProcess (obs oldF f) s.st, pairCount := s.pairCount + 1 }
      | none => s
    else s
  { s' with old := some f, processFrames := true, frameCount := s.frameCount + 1 }

/-- Initial loop state: `cur_pose = start_pose` (identity rotation, zero
translation, as a 3x4 array), empty `world_points`, `process_frames = False`. -/
def initLoopState {F W : Type} : LoopState F W :=
  { st := { pose := fun i j => if (i : ℕ) = (j : ℕ) then FP.fin 1 else FP.fin 0,
            wp := [] },
    old := none, processFrames := false, frameCount := 0, pairCount := 0 }

/-- Running the main loop over the ordered frames of the source. -/
def runLoop {F W : Type} (obs : F → F → PairObs W) (frames : List F) : LoopState F W :=
  frames.foldl (loopStep obs) initLoopState

/-- Python extended slice `l[::s]` for a positive step `s`: the head is kept,
then `s - 1` elements are dropped, and so on. -/
def strideList {α : Type} : List α → ℕ → List α
  | [], _ => []
  | a :: rest, s => a :: strideList (rest.drop (s - 1)) s
termination_by l _ => l.length
decreasing_by
  simp only [List.length_drop, List.length_cons]
  omega

/-- Model of `_load_images(filepath, skip_frames)` (lines 28-36): stride the
sorted path list by `skip_frames`, read each path (`cv2.imread`, an oracle:
each element of `reads` is the read result for the corresponding path), and
keep the successfully decoded images. -/
def load_imagesM {Img : Type} (reads : List (Option Img)) (skip : ℕ) : List Img :=
  ((strideList reads skip).filterMap id)

/-!
Layer 2: the pose disambiguator `decomp_essential_mat_old` (lines 127-162),
embedded over `ℝ` (exact-real model of float arithmetic).
`cv2.triangulatePoints` is the oracle `tri`, a function of the two 3x4
projection matrices and the two pixel-coordinate sequences, returning
homogeneous 3D points (one per correspondence).
-/

/-- A triangulated 3D point after homogeneous normalization. -/
structure Pt3 where
  x : ℝ
  y : ℝ
  z : ℝ

/-- A homogeneous 3D point as returned by `cv2.triangulatePoints`. -/
structure Hom4 where
  x : ℝ
  y : ℝ
  z : ℝ
  w : ℝ

/-- 3x3 real matrix (intrinsics, rotations). -/
abbrev Mat3R : Type := Fin 3 → Fin 3 → ℝ

/-- Real 3-vector (translation). -/
abbrev Vec3R : Type := Fin 3 → ℝ

/-- 3x4 real matrix (projection matrices). -/
abbrev Mat34R : Type := Fin 3 → Fin 4 → ℝ

/-- 4x4 real matrix (candidate rigid transforms). -/
abbrev Mat4R : Type := Fin 4 → Fin 4 → ℝ

/-- A 2D pixel coordinate, real-valued in this layer. -/
abbrev Pt2R : Type := ℝ × ℝ

/-- The triangulation oracle: `tri P1 P2 q1 q2` models
`cv2.triangulatePoints(P1, P2, q1.T, q2.T)`, column by column. -/
abbrev TriOracle : Type := Mat34R → Mat34R → List Pt2R → List Pt2R → List Hom4

/-- Model of `_form_transf(R, t)` in the real layer:
`T = eye(4); T[:3,:3] = R; T[:3,3] = t`. -/
def form_transf (R : Mat3R) (t : Vec3R) : Mat4R := fun i j =>
  if hi : (i : ℕ) < 3 then
    if hj : (j : ℕ) < 3 then R ⟨i, hi⟩ ⟨j, hj⟩ else t ⟨i, hi⟩
  else
    if (j : ℕ) = 3 then 1 else 0

/-- Model of `np.concatenate((self.K, np.zeros((3, 1))), axis=1)`. -/
def Kcat (K : Mat3R) : Mat34R := fun i j =>
  if hj : (j : ℕ) < 3 then K i ⟨j, hj⟩ else 0

/-- Product of a 3x4 matrix with a 4x4 matrix (for `P = (K|0) @ T`). -/
def m34mul (A : Mat34R) (B : Mat4R) : Mat34R := fun i j =>
  A i 0 * B 0 j + A i 1 * B 1 j + A i 2 * B 2 j + A i 3 * B 3 j

/-- Model of `self.extrinsic = [[1,0,0,0],[0,1,0,0],[0,0,1,0]]` (line 18). -/
def extrinsicM : Mat34R := fun i j => if (i : ℕ) = (j : ℕ) then 1 else 0

/-- Product of a 3x3 matrix with a 3x4 matrix (for `self.P = K @ extrinsic`). -/
def m33m34 (A : Mat3R) (B : Mat34R) : Mat34R := fun i j =>
  A i 0 * B 0 j + A i 1 * B 1 j + A i 2 * B 2 j

/-- Model of `self.P = self.K @ self.extrinsic` (line 19). -/
def selfP (K : Mat3R) : Mat34R := m33m34 K extrinsicM

/-- Application of a 4x4 transform to a homogeneous point (one column of
`T @ hom_Q1`). -/
def applyT4 (T : Mat4R) (h : Hom4) : Hom4 :=
  ⟨T 0 0 * h.x + T 0 1 * h.y + T 0 2 * h.z + T 0 3 * h.w,
   T 1 0 * h.x + T 1 1 * h.y + T 1 2 * h.z + T 1 3 * h.w,
   T 2 0 * h.x + T 2 1 * h.y + T 2 2 * h.z + T 2 3 * h.w,
   T 3 0 * h.x + T 3 1 * h.y + T 3 2 * h.z + T 3 3 * h.w⟩

/-- Homogeneous normalization, one column of `hom_Q[:3, :] / hom_Q[3, :]`. -/
noncomputable def normalizeH (h : Hom4) : Pt3 := ⟨h.x / h.w, h.y / h.w, h.z / h.w⟩

/-- Componentwise difference of two normalized points. -/
def subP (p q : Pt3) : Pt3 := ⟨p.x - q.x, p.y - q.y, p.z - q.z⟩

/-- Euclidean norm of a 3D difference vector (`np.linalg.norm(..., axis=-1)`). -/
noncomputable def norm3R (p : Pt3) : ℝ := Real.sqrt (p.x ^ 2 + p.y ^ 2 + p.z ^ 2)

/-- The rows of `Q.T[:-1] - Q.T[1:]`: differences of consecutive points. -/
def consecDiffs (l : List Pt3) : List Pt3 := List.zipWith subP l l.tail

/-- The list of norms of consecutive-point differences of `Q`. -/
noncomputable def distsOf (l : List Pt3) : List ℝ := (consecDiffs l).map norm3R

/-- Model of `np.mean` on a 1D array. -/
noncomputable def meanR (l : List ℝ) : ℝ := l.sum / l.length

/-- Model of `sum(Q[2, :] > 0)`: the number of points with strictly positive
third coordinate. -/
noncomputable def countPosZ : List Pt3 → ℕ
  | [] => 0
  | p :: rest => (if 0 < p.z then 1 else 0) + countPosZ rest

/-- The homogeneous triangulation `hom_Q1` computed inside
`sum_z_cal_relative_scale` for the candidate `(R, t)` (lines 129-131):
`T = _form_transf(R, t)`, `P = (K|0) @ T`, `hom_Q1 = triangulatePoints(self.P, P, q1.T, q2.T)`. -/
def candHom (K : Mat3R) (tri : TriOracle) (q1 q2 : List Pt2R) (rt : Mat3R × Vec3R) :
    List Hom4 :=
  tri (selfP K) (m34mul (Kcat K) (form_transf rt.1 rt.2)) q1 q2

/-- The normalized point set `Q1` of a candidate (line 133). -/
noncomputable def candQ1 (K : Mat3R) (tri : TriOracle) (q1 q2 : List Pt2R)
    (rt : Mat3R × Vec3R) : List Pt3 :=
  (candHom K tri q1 q2 rt).map normalizeH

/-- The normalized point set `Q2` of a candidate (lines 132, 134):
`hom_Q2 = T @ hom_Q1`, then normalization. -/
noncomputable def candQ2 (K : Mat3R) (tri : TriOracle) (q1 q2 : List Pt2R)
    (rt : Mat3R × Vec3R) : List Pt3 :=
  ((candHom K tri q1 q2 rt).map (applyT4 (form_transf rt.1 rt.2))).map normalizeH

/-- Model of the inner function `sum_z_cal_relative_scale(R, t)`
(lines 128-139): the cheirality sum
`sum(Q1[2,:] > 0) + sum(Q2[2,:] > 0)` and the relative scale
`np.mean(np.linalg.norm(Q1.T[:-1] - Q1.T[1:], axis=-1) /
         np.linalg.norm(Q2.T[:-1] - Q2.T[1:], axis=-1))`. -/
noncomputable def sum_z_cal_relative_scale (K : Mat3R) (tri : TriOracle)
    (q1 q2 : List Pt2R) (rt : Mat3R × Vec3R) : ℕ × ℝ :=
  (countPosZ (candQ1 K tri q1 q2 rt) + countPosZ (candQ2 K tri q1 q2 rt),
   meanR (List.zipWith (· / ·) (distsOf (candQ1 K tri q1 q2 rt))
      (distsOf (candQ2 K tri q1 q2 rt))))

/-- The four candidate pairs `[[R1,t], [R1,-t], [R2,t], [R2,-t]]` (line 143),
built from the oracle output of `cv2.decomposeEssentialMat` after
`t = np.squeeze(t)`. -/
def candList (R1 R2 : Mat3R) (t : Vec3R) : List (Mat3R × Vec3R) :=
  [(R1, t), (R1, fun k => -(t k)), (R2, t), (R2, fun k => -(t k))]

/-- The list `z_sums` (lines 144-148). -/
noncomputable def zsums (K : Mat3R) (tri : TriOracle) (q1 q2 : List Pt2R)
    (R1 R2 : Mat3R) (t : Vec3R) : List ℕ :=
  (candList R1 R2 t).map fun rt => (sum_z_cal_relative_scale K tri q1 q2 rt).1

/-- The list `relative_scales` (lines 145-149). -/
noncomputable def rscales (K : Mat3R) (tri : TriOracle) (q1 q2 : List Pt2R)
    (R1 R2 : Mat3R) (t : Vec3R) : List ℝ :=
  (candList R1 R2 t).map fun rt => (sum_z_cal_relative_scale K tri q1 q2 rt).2

/-- Model of `np.argmax`: index of the first occurrence of the maximum
(0 on an empty list). -/
def argmaxFirst {α : Type} [LinearOrder α] : List α → ℕ
  | [] => 0
  | x :: xs =>
      let j := argmaxFirst xs
      if x < xs.getD j x then j + 1 else 0

/-- `right_pair_idx = np.argmax(z_sums)` (line 150): the code compares the
cheirality sums alone. -/
noncomputable def selIdx (K : Mat3R) (tri : TriOracle) (q1 q2 : List Pt2R)
    (R1 R2 : Mat3R) (t : Vec3R) : ℕ :=
  argmaxFirst (zsums K tri q1 q2 R1 R2 t)

/-- Result of `decomp_essential_mat_old`: the returned `[R1, t]` and the
`Q1` point set appended to `self.world_points` (line 161). -/
structure DecompRes where
  R : Mat3R
  t : Vec3R
  entry : List Pt3

/-- Model of `decomp_essential_mat_old(E, q1, q2)` (lines 127-162), given the
oracle output `(R1, R2, t)` of `cv2.decomposeEssentialMat(E)`: score the four
candidates, pick `pairs[np.argmax(z_sums)]`, scale its translation by that
candidate's relative scale, re-triangulate with the final transform, append
the normalized `Q1` to `world_points`, and return the rotation and scaled
translation. -/
noncomputable def decomp_essential_mat_old (K : Mat3R) (tri : TriOracle)
    (q1 q2 : List Pt2R) (R1 R2 : Mat3R) (t : Vec3R) : DecompRes :=
  let i := selIdx K tri q1 q2 R1 R2 t
  let rp := (candList R1 R2 t).getD i (R1, t)
  let sc := (rscales K tri q1 q2 R1 R2 t).getD i 0
  let tScaled : Vec3R := fun k => sc * rp.2 k
  let Tf := form_transf rp.1 tScaled
  let Pf := m34mul (Kcat K) Tf
  let hq := tri Pf Pf q1 q2
  ⟨rp.1, tScaled, hq.map normalizeH⟩

/-!
Definitions following the spec's words, for the refinement claims.
-/

/-- Distance between two successive triangulated points, as the spec words it
(claim C8): the Euclidean distance between the two points. -/
noncomputable def dist3 (p q : Pt3) : ℝ :=
  Real.sqrt ((p.x - q.x) ^ 2 + (p.y - q.y) ^ 2 + (p.z - q.z) ^ 2)

/-- The successive-point distances of a point sequence, per the spec's words:
one distance per consecutive pair. -/
noncomputable def succDistances (Q : List Pt3) : List ℝ :=
  (Q.zip Q.tail).map fun pq => dist3 pq.1 pq.2

/-- Relative-scale value per the spec's words (claim C8): the mean, over
consecutive triangulated point pairs, of the ratio of successive-point
distance in `Q1` to successive-point distance in `Q2`. -/
noncomputable def specRelScale (Q1 Q2 : List Pt3) : ℝ :=
  meanR (List.zipWith (· / ·) (succDistances Q1) (succDistances Q2))

/-- Cheirality score per the spec's words (claim C9): the count of points
whose normalized Z-coordinate is strictly positive in the first camera's
frame, plus the count of those strictly positive in the second camera's
frame. -/
noncomputable def specCheirality (Q1 Q2 : List Pt3) : ℕ :=
  (Q1.filter fun p => 0 < p.z).length + (Q2.filter fun p => 0 < p.z).length

/-- Candidate scores per the spec's words (claim C1): cheirality count and
relative-scale value summed before comparison. -/
noncomputable def specSumScores (K : Mat3R) (tri : TriOracle) (q1 q2 : List Pt2R)
    (R1 R2 : Mat3R) (t : Vec3R) : List ℝ :=
  List.zipWith (fun (z : ℕ) (s : ℝ) => (z : ℝ) + s) (zsums K tri q1 q2 R1 R2 t)
    (rscales K tri q1 q2 R1 R2 t)

/-- Selection per the spec's words (claim C1): the first-encountered maximum
of the summed scores. -/
noncomputable def specSelIdx (K : Mat3R) (tri : TriOracle) (q1 q2 : List Pt2R)
    (R1 R2 : Mat3R) (t : Vec3R) : ℕ :=
  argmaxFirst (specSumScores K tri q1 q2 R1 R2 t)

/-!
Concrete values used by witnesses and counterexamples.
-/

/-- A finite (all-zero) essential matrix. -/
def wEfin : Mat3F := fun _ _ => FP.fin 0

/-- An essential matrix whose entries are NaN. -/
def wEnan : Mat3F := fun _ _ => FP.nan

/-- A decomposition result with all-NaN rotation (degenerate geometry),
zero translation, and the world-points entry `7`. -/
def wDecNaN : DecompOut ℕ := ⟨fun _ _ => FP.nan, fun _ => FP.fin 0, 7⟩

/-- A decomposition result with finite rotation and translation. -/
def wDecFin : DecompOut ℕ := ⟨fun _ _ => FP.fin 0, fun _ => FP.fin 0, 7⟩

/-- The start pose `np.concatenate((identity(3), zeros((3,1))), axis=1)`. -/
def wPoseF : Mat34F := fun i j => if (i : ℕ) = (j : ℕ) then FP.fin 1 else FP.fin 0

/-- A 4x4 transform whose entries are all NaN. -/
def wTnan : Mat4F := fun _ _ => FP.nan

/-- A frame-pair observation with no keypoints in either image. -/
def wObsEmpty : PairObs ℕ :=
  ⟨[], [], [], wEfin, wDecFin⟩

/-- A constant observation oracle for the loop-count witness. -/
def wObsFun : ℕ → ℕ → PairObs ℕ := fun _ _ => wObsEmpty

/-- A 100-frame source in which every read succeeds. -/
def wReads : List (Option ℕ) := List.replicate 100 (some 0)

/-- Identity rotation for the geometric witness. -/
def wI3 : Mat3R := ![![1, 0, 0], ![0, 1, 0], ![0, 0, 1]]

/-- Unit translation along the optical axis for the geometric witness. -/
def wT : Vec3R := ![0, 0, 1]

/-- Rotation by 180 degrees about the optical axis (a valid output of
`cv2.decomposeEssentialMat`). -/
def cR2 : Mat3R := ![![-1, 0, 0], ![0, -1, 0], ![0, 0, 1]]

/-- A triangulation oracle for the selection counterexample: for the
candidate `(cR2, -t)` (recognizable by the projection entries
`P[0,0] = -1` and `P[2,3] = -1`) it returns one point with zero homogeneous
coordinate (modelling the near-zero `w` that `cv2.triangulatePoints` can
produce for a near-degenerate candidate projection) and one point just in
front of the second camera, inflating that candidate's relative scale; for
the other three candidates it returns two well-conditioned points. -/
noncomputable def cTri : TriOracle := fun _ P2 _ _ =>
  if P2 0 0 = -1 ∧ P2 2 3 = -1 then [⟨0, 0, 0, 0⟩, ⟨0, 0, 101/100, 1⟩]
  else [⟨0, 0, 1, 1⟩, ⟨1, 0, 1, 1⟩]

/-!
Helper lemmas: the scalar model.
-/

theorem FP.isFinite_iff {x : FP} : x.isFinite = true ↔ ∃ q, x = FP.fin q := by
  cases x <;> simp [FP.isFinite]

theorem FP.mul_fin_one (x : FP) : x.mul (FP.fin 1) = x := by
  cases x <;> simp [FP.mul]

theorem FP.mul_fin_zero {x : FP} (h : x.isFinite = true) : x.mul (FP.fin 0) = FP.fin 0 := by
  obtain ⟨q, rfl⟩ := FP.isFinite_iff.1 h
  simp [FP.mul]

theorem FP.add_fin_zero (x : FP) : x.add (FP.fin 0) = x := by
  cases x <;> simp [FP.add]

theorem FP.isFinite_mul {x y : FP} (hx : x.isFinite = true) (hy : y.isFinite = true) :
    (x.mul y).isFinite = true := by
  obtain ⟨a, rfl⟩ := FP.isFinite_iff.1 hx
  obtain ⟨b, rfl⟩ := FP.isFinite_iff.1 hy
  simp [FP.mul, FP.isFinite]

theorem FP.isFinite_add {x y : FP} (hx : x.isFinite = true) (hy : y.isFinite = true) :
    (x.add y).isFinite = true := by
  obtain ⟨a, rfl⟩ := FP.isFinite_iff.1 hx
  obtain ⟨b, rfl⟩ := FP.isFinite_iff.1 hy
  simp [FP.add, FP.isFinite]

theorem dot4F_finite {a b : Fin 4 → FP} (ha : ∀ k, (a k).isFinite = true)
    (hb : ∀ k, (b k).isFinite = true) : (dot4F a b).isFinite = true := by
  unfold dot4F
  exact FP.isFinite_add
    (FP.isFinite_add (FP.isFinite_mul (ha 0) (hb 0)) (FP.isFinite_mul (ha 1) (hb 1)))
    (FP.isFinite_add (FP.isFinite_mul (ha 2) (hb 2)) (FP.isFinite_mul (ha 3) (hb 3)))

/-- Composing a finite cumulative pose with the identity fallback transform
leaves the pose exactly unchanged (`A @ eye(4) = A` holds exactly in float
arithmetic when `A` is finite; a NaN row would instead poison the product). -/
theorem matMul34F_eye {P : Mat34F} (hp : allFinite34 P) : matMul34F P eye4F = P := by
  funext i j
  obtain ⟨q0, h0⟩ := FP.isFinite_iff.1 (hp i 0)
  obtain ⟨q1, h1⟩ := FP.isFinite_iff.1 (hp i 1)
  obtain ⟨q2, h2⟩ := FP.isFinite_iff.1 (hp i 2)
  obtain ⟨q3, h3⟩ := FP.isFinite_iff.1 (hp i 3)
  fin_cases j <;>
    simp [matMul34F, dot4F, eye4F, h0, h1, h2, h3, FP.mul, FP.add]

theorem allFinite34_matMul {P : Mat34F} {T : Mat4F} (hp : allFinite34 P)
    (ht : allFinite4 T) : allFinite34 (matMul34F P T) := by
  intro i j
  exact dot4F_finite (fun k => hp i k) (fun k => ht k j)

theorem allFinite4_of_checks_false {T : Mat4F} (h : (anyNaN4 T || anyInf4 T) = false) :
    allFinite4 T := by
  intro i j
  rw [Bool.or_eq_false_iff] at h
  cases hx : T i j with
  | fin q => rfl
  | inf =>
      exfalso
      have hbad : anyInf4 T = true := by
        simp only [anyInf4, List.any_eq_true]
        exact ⟨i, List.mem_finRange i, j, List.mem_finRange j, by rw [hx]; rfl⟩
      rw [h.2] at hbad
      exact Bool.false_ne_true hbad
  | ninf =>
      exfalso
      have hbad : anyInf4 T = true := by
        simp only [anyInf4, List.any_eq_true]
        exact ⟨i, List.mem_finRange i, j, List.mem_finRange j, by rw [hx]; rfl⟩
      rw [h.2] at hbad
      exact Bool.false_ne_true hbad
  | nan =>
      exfalso
      have hbad : anyNaN4 T = true := by
        simp only [anyNaN4, List.any_eq_true]
        exact ⟨i, List.mem_finRange i, j, List.mem_finRange j, by rw [hx]; rfl⟩
      rw [h.1] at hbad
      exact Bool.false_ne_true hbad

theorem eye4F_allFinite : allFinite4 eye4F := by decide

/-- Every return path of `get_pose` yields an all-finite transform: the
fallbacks are `np.eye(4)` and the final transform is returned only after
its NaN/Inf check passed. -/
theorem get_poseM_fst_allFinite {W : Type} (E : Mat3F) (dec : DecompOut W) :
    allFinite4 (get_poseM E dec).1 := by
  unfold get_poseM
  by_cases hE : (anyNaN3 E || anyInf3 E) = true
  · simp only [hE, if_true]
    exact eye4F_allFinite
  · simp only [Bool.not_eq_true] at hE
    by_cases h1 : (anyNaN3 dec.R || anyInf3 dec.R) = true
    · simp only [hE, h1, Bool.false_eq_true, if_false, if_true]
      exact eye4F_allFinite
    · simp only [Bool.not_eq_true] at h1
      by_cases h2 : (anyNaNv dec.t || anyInfv dec.t) = true
      · simp only [hE, h1, h2, Bool.false_eq_true, if_false, if_true]
        exact eye4F_allFinite
      · simp only [Bool.not_eq_true] at h2
        by_cases h3 : (anyNaN4 (form_transfF dec.R dec.t) ||
            anyInf4 (form_transfF dec.R dec.t)) = true
        · simp only [hE, h1, h2, h3, Bool.false_eq_true, if_false, if_true]
          exact eye4F_allFinite
        · simp only [Bool.not_eq_true] at h3
          simp only [hE, h1, h2, h3, Bool.false_eq_true, if_false]
          exact allFinite4_of_checks_false h3

/-!
Helper lemmas: the main loop.
-/

theorem pairProcess_pose_finite {W : Type} (o : PairObs W) (s : PipeState W)
    (h : allFinite34 s.pose) : allFinite34 (pairProcess o s).pose := by
  unfold pairProcess
  cases hm : get_matchesM o with
  | none => exact h
  | some q =>
      obtain ⟨q1, q2⟩ := q
      by_cases hl : 20 < q1.length ∧ 20 < q2.length
      · simpa [hl] using allFinite34_matMul h (get_poseM_fst_allFinite o.E o.dec)
      · simpa [hl] using h

theorem loopStep_pose_finite {F W : Type} (obs : F → F → PairObs W)
    (s : LoopState F W) (f : F) (h : allFinite34 s.st.pose) :
    allFinite34 ((loopStep obs s f).st.pose) := by
  unfold loopStep
  cases hpf : s.processFrames
  · simpa using h
  · cases ho : s.old
    · simpa using h
    · simpa using pairProcess_pose_finite _ _ h

theorem foldl_loop_pose_finite {F W : Type} (obs : F → F → PairObs W) :
    ∀ (frames : List F) (s : LoopState F W), allFinite34 s.st.pose →
      allFinite34 ((frames.foldl (loopStep obs) s).st.pose)
  | [], _, h => h
  | f :: rest, s, h =>
      foldl_loop_pose_finite obs rest (loopStep obs s f) (loopStep_pose_finite obs s f h)

theorem loopStep_frameCount {F W : Type} (obs : F → F → PairObs W)
    (s : LoopState F W) (f : F) : (loopStep obs s f).frameCount = s.frameCount + 1 := by
  unfold loopStep
  cases s.processFrames <;> cases s.old <;> rfl

theorem foldl_loop_frameCount {F W : Type} (obs : F → F → PairObs W) :
    ∀ (frames : List F) (s : LoopState F W),
      (frames.foldl (loopStep obs) s).frameCount = s.frameCount + frames.length
  | [], _ => rfl
  | f :: rest, s => by
      rw [List.foldl_cons, foldl_loop_frameCount obs rest, loopStep_frameCount]
      simp [Nat.add_assoc, Nat.add_comm 1]

theorem loopStep_pairCount_active {F W : Type} (obs : F → F → PairObs W)
    (s : LoopState F W) (f : F) (hp : s.processFrames = true) (g : F)
    (ho : s.old = some g) : (loopStep obs s f).pairCount = s.pairCount + 1 := by
  unfold loopStep
  rw [hp, ho]
  rfl

theorem loopStep_flags {F W : Type} (obs : F → F → PairObs W)
    (s : LoopState F W) (f : F) :
    (loopStep obs s f).processFrames = true ∧ (loopStep obs s f).old = some f := by
  unfold loopStep
  cases s.processFrames <;> cases s.old <;> exact ⟨rfl, rfl⟩

theorem foldl_loop_pairCount {F W : Type} (obs : F → F → PairObs W) :
    ∀ (frames : List F) (s : LoopState F W), s.processFrames = true →
      (∃ g, s.old = some g) →
      (frames.foldl (loopStep obs) s).pairCount = s.pairCount + frames.length
  | [], _, _, _ => rfl
  | f :: rest, s, hp, ⟨g, ho⟩ => by
      rw [List.foldl_cons,
        foldl_loop_pairCount obs rest (loopStep obs s f) (loopStep_flags obs s f).1
          ⟨f, (loopStep_flags obs s f).2⟩,
        loopStep_pairCount_active obs s f hp g ho]
      simp [Nat.add_assoc, Nat.add_comm 1]

theorem runLoop_pairCount {F W : Type} (obs : F → F → PairObs W) :
    ∀ (frames : List F), (runLoop obs frames).pairCount = frames.length - 1
  | [] => rfl
  | f :: rest => by
      unfold runLoop
      rw [List.foldl_cons,
        foldl_loop_pairCount obs rest (loopStep obs initLoopState f)
          (loopStep_flags obs initLoopState f).1 ⟨f, (loopStep_flags obs initLoopState f).2⟩]
      have h0 : (loopStep obs (initLoopState (F := F) (W := W)) f).pairCount = 0 := rfl
      rw [h0]
      simp

theorem runLoop_frameCount {F W : Type} (obs : F → F → PairObs W) (frames : List F) :
    (runLoop obs frames).frameCount = frames.length := by
  unfold runLoop
  rw [foldl_loop_frameCount]
  simp [initLoopState]

/-!
Helper lemmas: frame loading with a stride.
-/

theorem strideList_two_length {α : Type} :
    ∀ (l : List α), (strideList l 2).length = (l.length + 1) / 2
  | [] => by simp [strideList]
  | a :: rest => by
      have ih := strideList_two_length (rest.drop (2 - 1))
      simp only [strideList, List.length_cons, List.length_drop] at ih ⊢
      omega
termination_by l => l.length
decreasing_by
  simp only [List.length_drop, List.length_cons]
  omega

theorem strideList_all {α : Type} (p : α → Bool) :
    ∀ (l : List α) (s : ℕ), l.all p = true → (strideList l s).all p = true
  | [], _, _ => by simp [strideList]
  | a :: rest, s, h => by
      simp only [List.all_cons, Bool.and_eq_true] at h
      have hsub : ∀ x ∈ rest.drop (s - 1), x ∈ rest := fun x hx =>
        (List.drop_sublist (s - 1) rest).subset hx
      have hrest : (rest.drop (s - 1)).all p = true := by
        rw [List.all_eq_true] at h ⊢
        exact fun x hx => h.2 x (hsub x hx)
      simp only [strideList, List.all_cons, Bool.and_eq_true]
      exact ⟨h.1, strideList_all p (rest.drop (s - 1)) s hrest⟩
termination_by l _ _ => l.length
decreasing_by
  simp only [List.length_drop, List.length_cons]
  omega

theorem filterMap_id_length_of_all {α : Type} :
    ∀ (l : List (Option α)), l.all Option.isSome = true →
      (l.filterMap id).length = l.length
  | [], _ => rfl
  | o :: rest, h => by
      simp only [List.all_cons, Bool.and_eq_true] at h
      obtain ⟨x, rfl⟩ := Option.isSome_iff_exists.1 h.1
      simp only [List.filterMap_cons, id, List.length_cons]
      rw [filterMap_id_length_of_all rest h.2]

/-!
Helper lemmas: lists, argmax, means.
-/

theorem getD_map_of_lt {α β : Type} (f : α → β) (l : List α) (n : ℕ) (d : α) (dd : β)
    (h : n < l.length) : (l.map f).getD n dd = f (l.getD n d) := by
  rw [List.getD_eq_getElem?_getD, List.getD_eq_getElem?_getD, List.getElem?_map,
    List.getElem?_eq_getElem h]
  simp

theorem argmaxFirst_lt_length {α : Type} [LinearOrder α] :
    ∀ (l : List α), l ≠ [] → argmaxFirst l < l.length
  | x :: xs, _ => by
      by_cases hc : x < xs.getD (argmaxFirst xs) x
      · have hxs : xs ≠ [] := by
          intro hnil
          subst hnil
          simp [List.getD] at hc
        have ih := argmaxFirst_lt_length xs hxs
        simp only [argmaxFirst, hc, if_true, List.length_cons]
        omega
      · simp only [argmaxFirst, hc, if_false, List.length_cons]
        omega

theorem argmaxFirst_map_strictMono {α β : Type} [LinearOrder α] [LinearOrder β]
    (f : α → β) (hf : StrictMono f) :
    ∀ (l : List α), argmaxFirst (l.map f) = argmaxFirst l
  | [] => rfl
  | x :: xs => by
      have ih := argmaxFirst_map_strictMono f hf xs
      by_cases hx : xs = []
      · subst hx
        simp [argmaxFirst]
      · have hlt : argmaxFirst xs < xs.length := argmaxFirst_lt_length xs hx
        have hg : (xs.map f).getD (argmaxFirst xs) (f x) =
            f (xs.getD (argmaxFirst xs) x) :=
          getD_map_of_lt f xs _ x (f x) hlt
        simp only [List.map_cons, argmaxFirst, ih, hg]
        by_cases hc : x < xs.getD (argmaxFirst xs) x
        · rw [if_pos (hf hc), if_pos hc]
        · rw [if_neg (fun hh => hc (hf.lt_iff_lt.mp hh)), if_neg hc]

theorem zipWith_div_self (ds : List ℝ) (h0 : (0 : ℝ) ∉ ds) :
    List.zipWith (· / ·) ds ds = ds.map fun _ => (1 : ℝ) := by
  induction ds with
  | nil => rfl
  | cons d rest ih =>
      simp only [List.mem_cons, not_or] at h0
      have hd : d ≠ 0 := fun hh => h0.1 hh.symm
      simp only [List.zipWith_cons_cons, List.map_cons, div_self hd, ih h0.2]

theorem meanR_const_ones {α : Type} (l : List α) (hne : l ≠ []) :
    meanR (l.map fun _ => (1 : ℝ)) = 1 := by
  unfold meanR
  rw [List.map_const', List.sum_replicate, List.length_replicate]
  have hn : (l.length : ℝ) ≠ 0 := by
    simp only [ne_eq, Nat.cast_eq_zero, List.length_eq_zero]
    exact hne
  simp [hn]

theorem zipWith_cast_add_ones :
    ∀ (zs : List ℕ) (rs : List ℝ), rs.length = zs.length → (∀ x ∈ rs, x = 1) →
      List.zipWith (fun (z : ℕ) (s : ℝ) => (z : ℝ) + s) zs rs =
        zs.map fun (z : ℕ) => (z : ℝ) + 1
  | [], [], _, _ => rfl
  | [], r :: rs, h, _ => by simp at h
  | z :: zs, [], h, _ => by simp at h
  | z :: zs, r :: rs, h, h1 => by
      simp only [List.zipWith_cons_cons, List.map_cons]
      rw [h1 r (by simp),
        zipWith_cast_add_ones zs rs (by simpa using h) fun x hx => h1 x (by simp [hx])]

/-!
Helper lemmas: the candidate scores.
-/

theorem candList_length (R1 R2 : Mat3R) (t : Vec3R) : (candList R1 R2 t).length = 4 := rfl

theorem zsums_length (K : Mat3R) (tri : TriOracle) (q1 q2 : List Pt2R)
    (R1 R2 : Mat3R) (t : Vec3R) : (zsums K tri q1 q2 R1 R2 t).length = 4 := by
  simp [zsums, candList]

theorem rscales_length (K : Mat3R) (tri : TriOracle) (q1 q2 : List Pt2R)
    (R1 R2 : Mat3R) (t : Vec3R) : (rscales K tri q1 q2 R1 R2 t).length = 4 := by
  simp [rscales, candList]

theorem selIdx_lt_four (K : Mat3R) (tri : TriOracle) (q1 q2 : List Pt2R)
    (R1 R2 : Mat3R) (t : Vec3R) : selIdx K tri q1 q2 R1 R2 t < 4 := by
  have h := argmaxFirst_lt_length (zsums K tri q1 q2 R1 R2 t)
    (by rw [← List.length_pos, zsums_length]; omega)
  rw [zsums_length] at h
  exact h

theorem rscales_getD (K : Mat3R) (tri : TriOracle) (q1 q2 : List Pt2R)
    (R1 R2 : Mat3R) (t : Vec3R) (i : ℕ) (hi : i < 4) :
    (rscales K tri q1 q2 R1 R2 t).getD i 0 =
      (sum_z_cal_relative_scale K tri q1 q2 ((candList R1 R2 t).getD i (R1, t))).2 := by
  unfold rscales
  exact getD_map_of_lt _ (candList R1 R2 t) i (R1, t) 0 (by rw [candList_length]; exact hi)

/-- In exact arithmetic the computed relative scale is `1` whenever the
consecutive distances of `Q2` agree with those of `Q1` (as they do when the
candidate transform is a rigid motion and every triangulated point has a
nonzero homogeneous coordinate) and no consecutive pair coincides. -/
theorem scale_eq_one_of_dists_eq (Q1 Q2 : List Pt3)
    (heq : distsOf Q2 = distsOf Q1) (h0 : (0 : ℝ) ∉ distsOf Q1)
    (hne : distsOf Q1 ≠ []) :
    meanR (List.zipWith (· / ·) (distsOf Q1) (distsOf Q2)) = 1 := by
  rw [heq, zipWith_div_self _ h0, meanR_const_ones _ hne]

theorem countPosZ_eq_filter (l : List Pt3) :
    countPosZ l = (l.filter fun p => 0 < p.z).length := by
  induction l with
  | nil => rfl
  | cons p rest ih =>
      by_cases hp : 0 < p.z
      · simp [countPosZ, List.filter_cons, hp, ih]
        omega
      · simp [countPosZ, List.filter_cons, hp, ih]

theorem distsOf_eq_succDistances (Q : List Pt3) : distsOf Q = succDistances Q := by
  unfold distsOf succDistances consecDiffs
  rw [List.zip_eq_zipWith, List.map_zipWith, List.map_zipWith]
  have hfun : (fun x y => norm3R (subP x y)) =
      fun (x y : Pt3) => dist3 (x, y).1 (x, y).2 := by
    funext a b
    simp [norm3R, subP, dist3]
  rw [hfun]

theorem relScale_eq_spec (K : Mat3R) (tri : TriOracle) (q1 q2 : List Pt2R)
    (rt : Mat3R × Vec3R) :
    (sum_z_cal_relative_scale K tri q1 q2 rt).2 =
      specRelScale (candQ1 K tri q1 q2 rt) (candQ2 K tri q1 q2 rt) := by
  unfold sum_z_cal_relative_scale specRelScale
  rw [distsOf_eq_succDistances, distsOf_eq_succDistances]

/-- Claim C9: for every candidate hypothesis, the cheirality score computed
by `sum_z_cal_relative_scale` equals the count of triangulated points with
strictly positive normalized Z in the first camera's frame plus the count of
those with strictly positive normalized Z in the second camera's frame. -/
theorem C9_cheirality_score (K : Mat3R) (tri : TriOracle) (q1 q2 : List Pt2R)
    (rt : Mat3R × Vec3R) :
    (sum_z_cal_relative_scale K tri q1 q2 rt).1 =
      specCheirality (candQ1 K tri q1 q2 rt) (candQ2 K tri q1 q2 rt) := by
  unfold sum_z_cal_relative_scale specCheirality
  rw [countPosZ_eq_filter, countPosZ_eq_filter]

/-- Claim C8: the translation returned by `decomp_essential_mat_old` is the
winning candidate's signed translation direction multiplied by the
relative-scale value of that same candidate, the relative scale being the
mean over consecutive triangulated point pairs of the ratio of
successive-point distance in `Q1` to successive-point distance in `Q2`. -/
theorem C8_translation_scaling (K : Mat3R) (tri : TriOracle) (q1 q2 : List Pt2R)
    (R1 R2 : Mat3R) (t : Vec3R) :
    (decomp_essential_mat_old K tri q1 q2 R1 R2 t).t = fun k =>
      specRelScale
          (candQ1 K tri q1 q2
            ((candList R1 R2 t).getD (selIdx K tri q1 q2 R1 R2 t) (R1, t)))
          (candQ2 K tri q1 q2
            ((candList R1 R2 t).getD (selIdx K tri q1 q2 R1 R2 t) (R1, t))) *
        ((candList R1 R2 t).getD (selIdx K tri q1 q2 R1 R2 t) (R1, t)).2 k := by
  simp only [decomp_essential_mat_old]
  funext k
  rw [rscales_getD K tri q1 q2 R1 R2 t _ (selIdx_lt_four K tri q1 q2 R1 R2 t),
    relScale_eq_spec]

/-- Boundary of agreement between the two selection rules: when the four
candidates' consecutive triangulated distances are preserved by the
candidate transforms (rigid candidate motions, nonzero homogeneous
coordinates, no coincident consecutive points), every candidate's relative
scale is exactly `1`, so the code's `np.argmax(z_sums)` coincides with the
spec's summed cheirality-plus-scale selection.  The counterexample below
shows the two rules genuinely diverge outside this regime. -/
theorem selIdx_eq_specSelIdx_of_unit_scales (K : Mat3R) (tri : TriOracle) (q1 q2 : List Pt2R)
    (R1 R2 : Mat3R) (t : Vec3R)
    (h : ∀ rt ∈ candList R1 R2 t,
        distsOf (candQ2 K tri q1 q2 rt) = distsOf (candQ1 K tri q1 q2 rt) ∧
        (0 : ℝ) ∉ distsOf (candQ1 K tri q1 q2 rt) ∧
        distsOf (candQ1 K tri q1 q2 rt) ≠ []) :
    selIdx K tri q1 q2 R1 R2 t = specSelIdx K tri q1 q2 R1 R2 t ∧
    (decomp_essential_mat_old K tri q1 q2 R1 R2 t).R =
      ((candList R1 R2 t).getD (specSelIdx K tri q1 q2 R1 R2 t) (R1, t)).1 ∧
    (decomp_essential_mat_old K tri q1 q2 R1 R2 t).t = fun k =>
      (rscales K tri q1 q2 R1 R2 t).getD (specSelIdx K tri q1 q2 R1 R2 t) 0 *
        ((candList R1 R2 t).getD (specSelIdx K tri q1 q2 R1 R2 t) (R1, t)).2 k := by
  have hall1 : ∀ x ∈ rscales K tri q1 q2 R1 R2 t, x = 1 := by
    intro x hx
    unfold rscales at hx
    rw [List.mem_map] at hx
    obtain ⟨rt, hrt, hxeq⟩ := hx
    obtain ⟨heq, h0, hne⟩ := h rt hrt
    rw [← hxeq]
    unfold sum_z_cal_relative_scale
    exact scale_eq_one_of_dists_eq _ _ heq h0 hne
  have hmono : StrictMono fun (z : ℕ) => (z : ℝ) + 1 := fun a b hab =>
    add_lt_add_right (by exact_mod_cast hab) 1
  have hidx : specSelIdx K tri q1 q2 R1 R2 t = selIdx K tri q1 q2 R1 R2 t := by
    unfold specSelIdx specSumScores selIdx
    rw [zipWith_cast_add_ones _ _
        (by rw [rscales_length, zsums_length]) hall1,
      argmaxFirst_map_strictMono _ hmono]
  refine ⟨hidx.symm, ?_, ?_⟩
  · simp only [decomp_essential_mat_old]
    rw [hidx]
  · simp only [decomp_essential_mat_old]
    rw [hidx]

/-- Claim C10: on every input on which its subroutines return, `get_pose`
returns a 4x4 matrix all of whose entries are finite: every return path is
either the identity fallback or a transform that passed the explicit
finiteness check. -/
theorem C10_get_pose_finite {W : Type} (E : Mat3F) (dec : DecompOut W) :
    allFinite4 (get_poseM E dec).1 :=
  get_poseM_fst_allFinite E dec

/-- Claim C3: when the estimated essential matrix contains a NaN or Inf
entry, `get_pose` returns the 4x4 identity transform without invoking
decomposition (the result is `(eye4F, [])` for every decomposition oracle,
so no world-points entry is produced), and composing a finite cumulative
pose with that identity leaves the pose's value unchanged. -/
theorem C3_nonfinite_E_identity {W : Type} (E : Mat3F) (dec : DecompOut W)
    (pose : Mat34F) (hE : (anyNaN3 E || anyInf3 E) = true) (hp : allFinite34 pose) :
    get_poseM E dec = (eye4F, []) ∧ matMul34F pose eye4F = pose := by
  constructor
  · simp [get_poseM, hE]
  · exact matMul34F_eye hp

/-- Witness for claim C3 at a concrete NaN essential matrix, decomposition
oracle and start pose. -/
theorem C3_nonfinite_E_identity_witness :
    (anyNaN3 wEnan || anyInf3 wEnan) = true ∧ allFinite34 wPoseF ∧
      (get_poseM wEnan wDecFin = (eye4F, []) ∧ matMul34F wPoseF eye4F = wPoseF) :=
  ⟨by decide, by decide,
    C3_nonfinite_E_identity wEnan wDecFin wPoseF (by decide) (by decide)⟩

/-- Counterexample for claim C2: a frame pair whose essential matrix is
finite but whose decomposed rotation is all NaN (DegenerateGeometry) still
appends an entry to `world_points`, because `decomp_essential_mat_old`
appends (line 161) before `get_pose` performs its finiteness checks. -/
theorem C2_counterexample :
    (anyNaN3 wEfin || anyInf3 wEfin) = false ∧ anyNaN3 wDecNaN.R = true ∧
      (get_poseM wEfin wDecNaN).2 ≠ [] := by decide

/-- Claim C2 as amended: on DegenerateGeometry from decomposition (non-finite
rotation, translation, or assembled transform), the cumulative pose is left
unchanged (identity is returned and composition with it is exact on a finite
pose), but an entry IS appended to `world_points`; only a non-finite
essential matrix, checked before decomposition, avoids the append. -/
theorem C2_pose_kept_entry_appended {W : Type} (E : Mat3F) (dec : DecompOut W)
    (pose : Mat34F) (hE : (anyNaN3 E || anyInf3 E) = false)
    (hbad : (anyNaN3 dec.R || anyInf3 dec.R) = true ∨
      (anyNaNv dec.t || anyInfv dec.t) = true ∨
      (anyNaN4 (form_transfF dec.R dec.t) || anyInf4 (form_transfF dec.R dec.t)) = true)
    (hp : allFinite34 pose) :
    get_poseM E dec = (eye4F, [dec.entry]) ∧ matMul34F pose eye4F = pose := by
  refine ⟨?_, matMul34F_eye hp⟩
  unfold get_poseM
  rw [hE]
  simp only [Bool.false_eq_true, if_false]
  by_cases h1 : (anyNaN3 dec.R || anyInf3 dec.R) = true
  · simp [h1]
  · simp only [Bool.not_eq_true] at h1
    by_cases h2 : (anyNaNv dec.t || anyInfv dec.t) = true
    · simp [h1, h2]
    · simp only [Bool.not_eq_true] at h2
      have h3 : (anyNaN4 (form_transfF dec.R dec.t) ||
          anyInf4 (form_transfF dec.R dec.t)) = true := by
        rcases hbad with hb | hb | hb
        · rw [h1] at hb
          exact absurd hb (by simp)
        · rw [h2] at hb
          exact absurd hb (by simp)
        · exact hb
      simp [h1, h2, h3]

/-- Witness for the amended claim C2 at a concrete finite essential matrix,
NaN rotation and start pose. -/
theorem C2_pose_kept_entry_appended_witness :
    (anyNaN3 wEfin || anyInf3 wEfin) = false ∧
      (anyNaN3 wDecNaN.R || anyInf3 wDecNaN.R) = true ∧
      (get_poseM wEfin wDecNaN = (eye4F, [wDecNaN.entry]) ∧
        matMul34F wPoseF eye4F = wPoseF) :=
  ⟨by decide, by decide,
    C2_pose_kept_entry_appended wEfin wDecNaN wPoseF (by decide)
      (Or.inl (by decide)) (by decide)⟩

/-- Counterexample for claim C4: the integrator (line 215) performs no
validation after composing: composing the finite start pose with an all-NaN
relative transform yields a non-finite cumulative pose and does not keep the
previous valid pose. -/
theorem C4_no_validation_counterexample :
    ¬ allFinite34 (integrateM wPoseF wTnan) ∧ integrateM wPoseF wTnan ≠ wPoseF := by
  decide

/-- Claim C4 as amended: the main loop performs no validation after the
composition `cur_pose = cur_pose @ transf`; nevertheless the cumulative pose
of every reachable loop state is finite, because `get_pose` only returns
transforms that passed its finiteness checks and, in exact arithmetic, the
product of finite matrices is finite. -/
theorem C4_pose_always_finite {F W : Type} (obs : F → F → PairObs W)
    (frames : List F) : allFinite34 (runLoop obs frames).st.pose := by
  unfold runLoop
  exact foldl_loop_pose_finite obs frames initLoopState
    (by
      intro i j
      fin_cases i <;> fin_cases j <;> rfl)

/-- Claim C5: when either image yields 6 or fewer keypoints, `get_matches`
returns the sentinel `None, None` rather than raising, and the frame pair's
processing leaves both the cumulative pose and `world_points` unchanged. -/
theorem C5_few_keypoints_noop {W : Type} (o : PairObs W) (s : PipeState W)
    (h : o.kps1.length ≤ 6 ∨ o.kps2.length ≤ 6) :
    get_matchesM o = none ∧ pairProcess o s = s := by
  have hm : get_matchesM o = none := by
    unfold get_matchesM
    rw [if_neg (by omega : ¬(6 < o.kps1.length ∧ 6 < o.kps2.length))]
  refine ⟨hm, ?_⟩
  unfold pairProcess
  rw [hm]

/-- Witness for claim C5 at a frame pair with no keypoints at all. -/
theorem C5_few_keypoints_noop_witness :
    (wObsEmpty.kps1.length ≤ 6 ∨ wObsEmpty.kps2.length ≤ 6) ∧
      (get_matchesM wObsEmpty = none ∧
        pairProcess wObsEmpty ⟨wPoseF, []⟩ = ⟨wPoseF, []⟩) :=
  ⟨Or.inl (by decide),
    C5_few_keypoints_noop wObsEmpty ⟨wPoseF, []⟩ (Or.inl (by decide))⟩

/-- Counterexample for claim C6: with a well-formed pair, then a match
lacking a second neighbour, then another well-formed pair that passes the
ratio test, the code keeps only the first match, while the claim's rule
(drop only the lone malformed match, process all others) would keep two. -/
theorem C6_counterexample :
    goodMatchesLoop
        [[⟨0, 0, 1⟩, ⟨0, 0, 10⟩], [⟨1, 1, 1⟩], [⟨2, 2, 1⟩, ⟨2, 2, 10⟩]] ≠
      goodMatchesSpec
        [[⟨0, 0, 1⟩, ⟨0, 0, 10⟩], [⟨1, 1, 1⟩], [⟨2, 2, 1⟩, ⟨2, 2, 10⟩]] := by
  have h1 : (1 : ℚ) < 1/2 * 10 := by norm_num
  have hl : goodMatchesLoop
      [[⟨0, 0, 1⟩, ⟨0, 0, 10⟩], [⟨1, 1, 1⟩], [⟨2, 2, 1⟩, ⟨2, 2, 10⟩]] =
      [⟨0, 0, 1⟩] := by
    show (if (1 : ℚ) < 1/2 * 10 then ([⟨0, 0, 1⟩] : List DMatch) else []) = [⟨0, 0, 1⟩]
    rw [if_pos h1]
  have hs : goodMatchesSpec
      [[⟨0, 0, 1⟩, ⟨0, 0, 10⟩], [⟨1, 1, 1⟩], [⟨2, 2, 1⟩, ⟨2, 2, 10⟩]] =
      [⟨0, 0, 1⟩, ⟨2, 2, 1⟩] := by
    show (if (1 : ℚ) < 1/2 * 10 then
        (⟨0, 0, 1⟩ : DMatch) ::
          (if (1 : ℚ) < 1/2 * 10 then ([⟨2, 2, 1⟩] : List DMatch) else [])
      else (if (1 : ℚ) < 1/2 * 10 then ([⟨2, 2, 1⟩] : List DMatch) else [])) =
      [⟨0, 0, 1⟩, ⟨2, 2, 1⟩]
    simp only [if_pos h1]
  rw [hl, hs]
  simp

/-- Claim C6 as amended: a match is accepted iff its best distance is
strictly below 0.5 times its second-best distance AND it occurs before the
first element that does not have exactly two neighbours; at that element the
`ValueError` from tuple unpacking aborts the loop, so it and every later
match are dropped (matches before it are kept), and the operation itself
does not fail. -/
theorem C6_ratio_loop_stops_at_malformed :
    ∀ (ms : List (List DMatch)),
      goodMatchesLoop ms = goodMatchesSpec (ms.takeWhile fun l => l.length == 2)
  | [] => rfl
  | [] :: _ => rfl
  | [_] :: _ => rfl
  | [m, n] :: rest => by
      have ih := C6_ratio_loop_stops_at_malformed rest
      show (if m.distance < 1/2 * n.distance then m :: goodMatchesLoop rest
          else goodMatchesLoop rest) =
        (if m.distance < 1/2 * n.distance then
            m :: goodMatchesSpec (rest.takeWhile fun l => l.length == 2)
          else goodMatchesSpec (rest.takeWhile fun l => l.length == 2))
      by_cases hc : m.distance < 1/2 * n.distance
      · rw [if_pos hc, if_pos hc, ih]
      · rw [if_neg hc, if_neg hc, ih]
  | (_ :: _ :: _ :: _) :: _ => rfl

/-- Claim C7: with the stride mechanism (`_load_images` with
`skip_frames = 2`) applied to a 100-frame source in which every read
succeeds, the pipeline receives exactly 50 frames, and the main loop, run on
those frames, reads exactly 50 frames and processes exactly 49 frame pairs. -/
theorem C7_stride_counts {Img W : Type} (reads : List (Option Img))
    (obs : Img → Img → PairObs W) (h100 : reads.length = 100)
    (hall : reads.all Option.isSome = true) :
    (load_imagesM reads 2).length = 50 ∧
      (runLoop obs (load_imagesM reads 2)).frameCount = 50 ∧
      (runLoop obs (load_imagesM reads 2)).pairCount = 49 := by
  have hstr : (strideList reads 2).all Option.isSome = true :=
    strideList_all _ reads 2 hall
  have hlen : (load_imagesM reads 2).length = 50 := by
    unfold load_imagesM
    rw [filterMap_id_length_of_all _ hstr, strideList_two_length, h100]
  refine ⟨hlen, ?_, ?_⟩
  · rw [runLoop_frameCount, hlen]
  · rw [runLoop_pairCount, hlen]

/-- Witness for claim C7 at a concrete 100-frame all-readable source. -/
theorem C7_stride_counts_witness :
    wReads.length = 100 ∧ wReads.all Option.isSome = true ∧
      ((load_imagesM wReads 2).length = 50 ∧
        (runLoop wObsFun (load_imagesM wReads 2)).frameCount = 50 ∧
        (runLoop wObsFun (load_imagesM wReads 2)).pairCount = 49) :=
  ⟨by decide, by decide, C7_stride_counts wReads wObsFun (by decide) (by decide)⟩

/-- Entrywise evaluation of a candidate transform applied to a homogeneous
point: the last row of `_form_transf` is `(0, 0, 0, 1)`. -/
theorem applyT4_form_transf (R : Mat3R) (t : Vec3R) (h : Hom4) :
    applyT4 (form_transf R t) h =
      ⟨R 0 0 * h.x + R 0 1 * h.y + R 0 2 * h.z + t 0 * h.w,
       R 1 0 * h.x + R 1 1 * h.y + R 1 2 * h.z + t 1 * h.w,
       R 2 0 * h.x + R 2 1 * h.y + R 2 2 * h.z + t 2 * h.w,
       0 * h.x + 0 * h.y + 0 * h.z + 1 * h.w⟩ := rfl

/-- Entry `(0,0)` of the candidate projection `P = (K|0) @ _form_transf(R,t)`
for the identity intrinsics: it equals the rotation's `(0,0)` entry. -/
theorem P_entry_00 (R : Mat3R) (t : Vec3R) :
    m34mul (Kcat wI3) (form_transf R t) 0 0 = R 0 0 := by
  show (1 : ℝ) * R 0 0 + 0 * R 1 0 + 0 * R 2 0 + 0 * 0 = R 0 0
  ring

/-- Entry `(2,3)` of the candidate projection for the identity intrinsics:
it equals the translation's third component. -/
theorem P_entry_23 (R : Mat3R) (t : Vec3R) :
    m34mul (Kcat wI3) (form_transf R t) 2 3 = t 2 := by
  show (0 : ℝ) * t 0 + 0 * t 1 + 1 * t 2 + 0 * 1 = t 2
  ring

theorem candHom_c0 : candHom wI3 cTri [] [] (wI3, wT) = [⟨0, 0, 1, 1⟩, ⟨1, 0, 1, 1⟩] := by
  unfold candHom cTri
  rw [P_entry_00, P_entry_23,
    if_neg (by norm_num [show wI3 0 0 = (1:ℝ) from rfl] :
      ¬(wI3 0 0 = (-1 : ℝ) ∧ wT 2 = (-1 : ℝ)))]

theorem candHom_c1 : candHom wI3 cTri [] []
    (wI3, fun k => -(wT k)) = [⟨0, 0, 1, 1⟩, ⟨1, 0, 1, 1⟩] := by
  unfold candHom cTri
  rw [P_entry_00, P_entry_23,
    if_neg (by norm_num [show wI3 0 0 = (1:ℝ) from rfl] :
      ¬(wI3 0 0 = (-1 : ℝ) ∧ -(wT 2) = (-1 : ℝ)))]

theorem candHom_c2 : candHom wI3 cTri [] [] (cR2, wT) = [⟨0, 0, 1, 1⟩, ⟨1, 0, 1, 1⟩] := by
  unfold candHom cTri
  rw [P_entry_00, P_entry_23,
    if_neg (by norm_num [show wT 2 = (1:ℝ) from rfl] :
      ¬(cR2 0 0 = (-1 : ℝ) ∧ wT 2 = (-1 : ℝ)))]

theorem candHom_c3 : candHom wI3 cTri [] []
    (cR2, fun k => -(wT k)) = [⟨0, 0, 0, 0⟩, ⟨0, 0, 101/100, 1⟩] := by
  unfold candHom cTri
  rw [P_entry_00, P_entry_23,
    if_pos (⟨rfl, by norm_num [show wT 2 = (1:ℝ) from rfl]⟩ :
      cR2 0 0 = (-1 : ℝ) ∧ -(wT 2) = (-1 : ℝ))]

/-- Candidate `(R1, t)` at the counterexample input: cheirality sum 4
(both points in front of both cameras), relative scale 1. -/
theorem sumz_c0 : sum_z_cal_relative_scale wI3 cTri [] [] (wI3, wT) = (4, 1) := by
  unfold sum_z_cal_relative_scale
  have hq1 : candQ1 wI3 cTri [] [] (wI3, wT) = [⟨0, 0, 1⟩, ⟨1, 0, 1⟩] := by
    unfold candQ1
    rw [candHom_c0]
    norm_num [normalizeH]
  have hq2 : candQ2 wI3 cTri [] [] (wI3, wT) = [⟨0, 0, 2⟩, ⟨1, 0, 2⟩] := by
    unfold candQ2
    rw [candHom_c0]
    norm_num [applyT4_form_transf, normalizeH, wI3, wT, Matrix.cons_val_zero,
      Matrix.cons_val_one, Matrix.head_cons, Matrix.cons_val_two, Matrix.tail_cons,
      Matrix.vecHead, Matrix.vecTail, Function.comp]
  rw [hq1, hq2]
  norm_num [countPosZ, distsOf, consecDiffs, subP, norm3R, meanR, Real.sqrt_one]

/-- Candidate `(R1, -t)` at the counterexample input: cheirality sum 2,
relative scale 1. -/
theorem sumz_c1 : sum_z_cal_relative_scale wI3 cTri [] []
    (wI3, fun k => -(wT k)) = (2, 1) := by
  unfold sum_z_cal_relative_scale
  have hq1 : candQ1 wI3 cTri [] [] (wI3, fun k => -(wT k)) = [⟨0, 0, 1⟩, ⟨1, 0, 1⟩] := by
    unfold candQ1
    rw [candHom_c1]
    norm_num [normalizeH]
  have hq2 : candQ2 wI3 cTri [] [] (wI3, fun k => -(wT k)) =
      [⟨0, 0, 0⟩, ⟨1, 0, 0⟩] := by
    unfold candQ2
    rw [candHom_c1]
    norm_num [applyT4_form_transf, normalizeH, wI3, wT, Matrix.cons_val_zero,
      Matrix.cons_val_one, Matrix.head_cons, Matrix.cons_val_two, Matrix.tail_cons,
      Matrix.vecHead, Matrix.vecTail, Function.comp]
  rw [hq1, hq2]
  norm_num [countPosZ, distsOf, consecDiffs, subP, norm3R, meanR, Real.sqrt_one]

/-- Candidate `(R2, t)` at the counterexample input: cheirality sum 4,
relative scale 1. -/
theorem sumz_c2 : sum_z_cal_relative_scale wI3 cTri [] [] (cR2, wT) = (4, 1) := by
  unfold sum_z_cal_relative_scale
  have hq1 : candQ1 wI3 cTri [] [] (cR2, wT) = [⟨0, 0, 1⟩, ⟨1, 0, 1⟩] := by
    unfold candQ1
    rw [candHom_c2]
    norm_num [normalizeH]
  have hq2 : candQ2 wI3 cTri [] [] (cR2, wT) = [⟨0, 0, 2⟩, ⟨-1, 0, 2⟩] := by
    unfold candQ2
    rw [candHom_c2]
    norm_num [applyT4_form_transf, normalizeH, cR2, wT, Matrix.cons_val_zero,
      Matrix.cons_val_one, Matrix.head_cons, Matrix.cons_val_two, Matrix.tail_cons,
      Matrix.vecHead, Matrix.vecTail, Function.comp]
  rw [hq1, hq2]
  norm_num [countPosZ, distsOf, consecDiffs, subP, norm3R, meanR, Real.sqrt_one]

/-- Candidate `(R2, -t)` at the counterexample input: the zero-`w` point
normalizes to the origin in both frames while the finite point moves from
depth 101/100 to depth 1/100, so the consecutive-distance ratio — and with
it the relative scale — is 101, while the cheirality sum is only 2. -/
theorem sumz_c3 : sum_z_cal_relative_scale wI3 cTri [] []
    (cR2, fun k => -(wT k)) = (2, 101) := by
  unfold sum_z_cal_relative_scale
  have hq1 : candQ1 wI3 cTri [] [] (cR2, fun k => -(wT k)) =
      [⟨0, 0, 0⟩, ⟨0, 0, 101/100⟩] := by
    unfold candQ1
    rw [candHom_c3]
    norm_num [normalizeH]
  have hq2 : candQ2 wI3 cTri [] [] (cR2, fun k => -(wT k)) =
      [⟨0, 0, 0⟩, ⟨0, 0, 1/100⟩] := by
    unfold candQ2
    rw [candHom_c3]
    norm_num [applyT4_form_transf, normalizeH, cR2, wT, Matrix.cons_val_zero,
      Matrix.cons_val_one, Matrix.head_cons, Matrix.cons_val_two, Matrix.tail_cons,
      Matrix.vecHead, Matrix.vecTail, Function.comp]
  rw [hq1, hq2]
  norm_num [countPosZ, distsOf, consecDiffs, subP, norm3R, meanR]
  rw [show (10201 : ℝ) = 101 ^ 2 by norm_num,
    Real.sqrt_sq (by norm_num : (0:ℝ) ≤ 101)]

theorem zsums_c : zsums wI3 cTri [] [] wI3 cR2 wT = [4, 2, 4, 2] := by
  unfold zsums candList
  rw [List.map_cons, List.map_cons, List.map_cons, List.map_cons, List.map_nil,
    sumz_c0, sumz_c1, sumz_c2, sumz_c3]

theorem rscales_c : rscales wI3 cTri [] [] wI3 cR2 wT = [1, 1, 1, 101] := by
  unfold rscales candList
  rw [List.map_cons, List.map_cons, List.map_cons, List.map_cons, List.map_nil,
    sumz_c0, sumz_c1, sumz_c2, sumz_c3]

/-- The code picks the first maximum of `z_sums = [4, 2, 4, 2]`: index 0. -/
theorem selIdx_c : selIdx wI3 cTri [] [] wI3 cR2 wT = 0 := by
  unfold selIdx
  rw [zsums_c]
  decide

theorem specScores_c : specSumScores wI3 cTri [] [] wI3 cR2 wT = [5, 3, 5, 103] := by
  unfold specSumScores
  rw [zsums_c, rscales_c]
  norm_num

/-- The claim's summed rule picks the maximum of `[5, 3, 5, 103]`: index 3. -/
theorem specSelIdx_c : specSelIdx wI3 cTri [] [] wI3 cR2 wT = 3 := by
  unfold specSelIdx
  rw [specScores_c]
  norm_num [argmaxFirst, List.getD, List.getElem?_cons_zero, List.getElem?_cons_succ]

/-- Counterexample for claim C1: at a concrete finite decomposition
(identity and 180-degree rotations, unit translation) and a triangulation
oracle giving the candidate `(R2, -t)` a near-degenerate point pair with
relative scale 101, the cheirality sums are `[4, 2, 4, 2]` and the summed
scores `[5, 3, 5, 103]`: the code (`np.argmax(z_sums)`, line 150) selects
index 0 and returns rotation `R1` with translation `t`, while the claimed
summed rule selects index 3, whose rotation and scaled translation both
differ from what `decomp_essential_mat_old` returns. -/
theorem C1_counterexample :
    selIdx wI3 cTri [] [] wI3 cR2 wT ≠ specSelIdx wI3 cTri [] [] wI3 cR2 wT ∧
    (decomp_essential_mat_old wI3 cTri [] [] wI3 cR2 wT).R ≠
      ((candList wI3 cR2 wT).getD (specSelIdx wI3 cTri [] [] wI3 cR2 wT) (wI3, wT)).1 ∧
    (decomp_essential_mat_old wI3 cTri [] [] wI3 cR2 wT).t ≠ fun k =>
      (rscales wI3 cTri [] [] wI3 cR2 wT).getD
          (specSelIdx wI3 cTri [] [] wI3 cR2 wT) 0 *
        ((candList wI3 cR2 wT).getD (specSelIdx wI3 cTri [] [] wI3 cR2 wT)
          (wI3, wT)).2 k := by
  refine ⟨by rw [selIdx_c, specSelIdx_c]; omega, ?_, ?_⟩
  · simp only [decomp_essential_mat_old, selIdx_c, specSelIdx_c, candList,
      List.getD_cons_zero, List.getD_cons_succ]
    intro h
    have h00 := congrFun (congrFun h 0) 0
    rw [show wI3 0 0 = (1:ℝ) from rfl, show cR2 0 0 = (-1:ℝ) from rfl] at h00
    norm_num at h00
  · simp only [decomp_essential_mat_old, selIdx_c, specSelIdx_c, rscales_c, candList,
      List.getD_cons_zero, List.getD_cons_succ]
    intro h
    have h2 := congrFun h 2
    rw [show wT 2 = (1:ℝ) from rfl] at h2
    norm_num at h2

/-- Claim C1 as amended: for every finite essential matrix and
correspondence set, `decomp_essential_mat_old` selects, among the four
(rotation, signed-translation) candidates, the one maximizing the
cheirality count alone — the first-encountered maximum of the per-candidate
counts of points with strictly positive normalized depth in both camera
frames — with the relative-scale value taking no part in the comparison:
it only multiplies the selected candidate's translation. -/
theorem C1_cheirality_only_selection (K : Mat3R) (tri : TriOracle) (q1 q2 : List Pt2R)
    (R1 R2 : Mat3R) (t : Vec3R) :
    selIdx K tri q1 q2 R1 R2 t =
      argmaxFirst ((candList R1 R2 t).map fun rt =>
        specCheirality (candQ1 K tri q1 q2 rt) (candQ2 K tri q1 q2 rt)) ∧
    (decomp_essential_mat_old K tri q1 q2 R1 R2 t).R =
      ((candList R1 R2 t).getD (selIdx K tri q1 q2 R1 R2 t) (R1, t)).1 ∧
    (decomp_essential_mat_old K tri q1 q2 R1 R2 t).t = fun k =>
      specRelScale
          (candQ1 K tri q1 q2
            ((candList R1 R2 t).getD (selIdx K tri q1 q2 R1 R2 t) (R1, t)))
          (candQ2 K tri q1 q2
            ((candList R1 R2 t).getD (selIdx K tri q1 q2 R1 R2 t) (R1, t))) *
        ((candList R1 R2 t).getD (selIdx K tri q1 q2 R1 R2 t) (R1, t)).2 k := by
  refine ⟨?_, ?_, ?_⟩
  · unfold selIdx zsums
    have hz : (fun rt => (sum_z_cal_relative_scale K tri q1 q2 rt).1) =
        fun rt => specCheirality (candQ1 K tri q1 q2 rt) (candQ2 K tri q1 q2 rt) := by
      funext rt
      unfold sum_z_cal_relative_scale specCheirality
      rw [countPosZ_eq_filter, countPosZ_eq_filter]
    rw [hz]
  · simp only [decomp_essential_mat_old]
  · simp only [decomp_essential_mat_old]
    funext k
    rw [rscales_getD K tri q1 q2 R1 R2 t _ (selIdx_lt_four K tri q1 q2 R1 R2 t),
      relScale_eq_spec]
